import Mathlib

/-!
# Verification of the bare-bmp codec (`src/binding.c`)

Shallow embedding of the BMP codec implemented in `src/binding.c`:

* `BareBmp.decode`  models `bare_bmp_decode`  (BMP bytes → width/height/RGBA),
* `BareBmp.encode`  models `bare_bmp_encode`  (width/height/RGBA → BMP bytes),
* `BareBmp.encodeAnimated` models `bare_bmp_encode_animated`.

Conventions of the embedding:

* A byte buffer is a `List Nat`; every read goes through `byteAt`, which
  truncates to `% 256` exactly as the C `uint8_t *` type guarantees.
* C unsigned 32-bit arithmetic is `Nat` arithmetic with explicit `% 2^32`
  at every operation that the C program performs in `uint32_t`.
* C signed values (`int32_t`, `int64_t`) are `Int`; conversions between
  signed and unsigned widths are `% 2^32` (`u32ofInt`) and two's-complement
  reinterpretation (`toI32`).  Truncating C division is `Int.tdiv`.
* `malloc` in `bare_bmp_decode` receives `width * abs_height * 4` computed in
  `int32_t`.  The embedding fails with `DecodeError.allocFailed` when this
  exact product is negative (the C cast to `size_t` produces an enormous
  request that `malloc` refuses) or does not fit `int32_t` (the C
  computation overflows); otherwise allocation is modelled as succeeding.
* Out-of-range reads return byte 0 (`List.getD`); the corresponding C reads
  are out of bounds, so no claim is settled on their produced values.
-/

namespace BareBmp

/-- Read one byte of a buffer: out-of-range reads default to 0, and values
are truncated to a byte as the C `uint8_t` type guarantees. -/
def byteAt (b : List Nat) (i : Nat) : Nat := b.getD i 0 % 256

/-- Little-endian 16-bit read, as the C code's packed `uint16_t` fields. -/
def readU16 (b : List Nat) (i : Nat) : Nat :=
  byteAt b i + 256 * byteAt b (i + 1)

/-- Little-endian 32-bit read, as the C code's packed `uint32_t` fields. -/
def readU32 (b : List Nat) (i : Nat) : Nat :=
  byteAt b i + 256 * byteAt b (i + 1) + 65536 * byteAt b (i + 2) +
    16777216 * byteAt b (i + 3)

/-- Reinterpret an unsigned 32-bit value as two's-complement `int32_t`. -/
def toI32 (n : Nat) : Int :=
  if n % 2 ^ 32 < 2 ^ 31 then (n % 2 ^ 32 : Nat) else (n % 2 ^ 32 : Nat) - 2 ^ 32

/-- Little-endian 32-bit read reinterpreted as `int32_t` (the `width` and
`height` fields of the DIB header). -/
def readI32 (b : List Nat) (i : Nat) : Int := toI32 (readU32 b i)

/-- Conversion of a signed value to `uint32_t` (C's modular conversion). -/
def u32ofInt (x : Int) : Nat := (x % (2 ^ 32 : Int)).toNat

/-- The conditional absolute value `height < 0 ? -height : height` of
`bare_bmp_decode`. -/
def absInt (x : Int) : Int := if x < 0 then -x else x

/-- The decode row size `((width * bytes_per_pixel + 3) / 4) * 4`, computed in
`uint32_t` exactly as `bare_bmp_decode` line 105 does (the `int32_t` width is
converted to `uint32_t` by the usual arithmetic conversions). -/
def rowSize (width : Int) (bytesPerPixel : Nat) : Nat :=
  ((u32ofInt width * bytesPerPixel) % 2 ^ 32 + 3) % 2 ^ 32 / 4 * 4

/-- Concatenation of the blocks `f 0 ++ f 1 ++ ⋯ ++ f (n-1)`; the shape of
both pixel loops of the C code. -/
def blocks (f : Nat → List Nat) : Nat → List Nat
  | 0 => []
  | n + 1 => blocks f n ++ f n

/-- One iteration of the inner decode loop: the four RGBA bytes produced from
the B,G,R[,A] source bytes at offset `p` (lines 133-136 of `binding.c`). -/
def decodePixel (bmp : List Nat) (p : Nat) (bpp : Nat) : List Nat :=
  [byteAt bmp (p + 2), byteAt bmp (p + 1), byteAt bmp p,
   if bpp = 32 then byteAt bmp (p + 3) else 255]

/-- One iteration of the outer decode loop: the RGBA bytes of one output row,
read starting at source offset `base`. -/
def decodeRow (bmp : List Nat) (base bytesPerPixel bpp w : Nat) : List Nat :=
  blocks (fun x => decodePixel bmp (base + x * bytesPerPixel) bpp) w

/-- The complete RGBA buffer written by the decode loops (lines 125-141). -/
def decodePixels (bmp : List Nat) (off rs bytesPerPixel bpp : Nat)
    (topDown : Bool) (w h : Nat) : List Nat :=
  blocks
    (fun y =>
      decodeRow bmp (off + (if topDown then y else h - 1 - y) * rs)
        bytesPerPixel bpp w)
    h

/-- The result object of a successful decode. -/
structure Image where
  width : Int
  height : Int
  data : List Nat
deriving DecidableEq, Repr

/-- The error cases of `bare_bmp_decode`, in the order the C code checks
them; `allocFailed` is the `malloc` failure path. -/
inductive DecodeError
  | tooSmall
  | badMagic
  | unsupportedHeader
  | unsupportedCompression
  | unsupportedBitDepth
  | truncatedData
  | allocFailed
deriving DecidableEq, Repr

/-- Model of `bare_bmp_decode` (`src/binding.c`, lines 42-170). -/
def decode (bmp : List Nat) : Except DecodeError Image :=
  if bmp.length < 54 then .error .tooSmall
  else if ¬ readU16 bmp 0 = 0x4D42 then .error .badMagic
  else if ¬ readU32 bmp 14 = 40 then .error .unsupportedHeader
  else if ¬ readU32 bmp 30 = 0 then .error .unsupportedCompression
  else if ¬ (readU16 bmp 28 = 24 ∨ readU16 bmp 28 = 32) then
    .error .unsupportedBitDepth
  else
    let width := readI32 bmp 18
    let height := readI32 bmp 22
    let absHeight := absInt height
    let bpp := readU16 bmp 28
    let bytesPerPixel := bpp / 8
    let rs := rowSize width bytesPerPixel
    let dataOffset := readU32 bmp 10
    if bmp.length < (dataOffset + rs * u32ofInt absHeight % 2 ^ 32) % 2 ^ 32 then
      .error .truncatedData
    else if ¬ (0 ≤ width * absHeight * 4 ∧ width * absHeight * 4 < 2 ^ 31) then
      .error .allocFailed
    else
      .ok ⟨width, absHeight,
        decodePixels bmp dataOffset rs bytesPerPixel bpp
          (decide (height < 0)) width.toNat absHeight.toNat⟩

/-- The 54 header bytes written by `bare_bmp_encode` (lines 238-258), given
the already width-converted field values: magic "BM", file size, two
reserved words, data offset 54, header size 40, width, height, planes 1,
bpp 24, compression 0, image size, both resolutions 2835 (bytes 19, 11),
and the two zero palette fields; multi-byte fields little-endian. -/
def encodeHeader (fs wf hf pds : Nat) : List Nat :=
  [0x42, 0x4D,
   fs % 256, fs / 256 % 256, fs / 65536 % 256, fs / 16777216 % 256,
   0, 0, 0, 0,
   54, 0, 0, 0,
   40, 0, 0, 0,
   wf % 256, wf / 256 % 256, wf / 65536 % 256, wf / 16777216 % 256,
   hf % 256, hf / 256 % 256, hf / 65536 % 256, hf / 16777216 % 256,
   1, 0, 24, 0,
   0, 0, 0, 0,
   pds % 256, pds / 256 % 256, pds / 65536 % 256, pds / 16777216 % 256,
   19, 11, 0, 0,
   19, 11, 0, 0,
   0, 0, 0, 0,
   0, 0, 0, 0]

/-- One iteration of the inner encode loop: the B,G,R bytes produced from the
RGBA source bytes at offset `idx` (lines 271-273; alpha is skipped). -/
def encPixel (data : List Nat) (idx : Nat) : List Nat :=
  [byteAt data (idx + 2), byteAt data (idx + 1), byteAt data idx]

/-- One destination BMP row holding source row `y`, including its zero
padding (the padding bytes come from the `memset` at line 236). -/
def encRow (data : List Nat) (w y pad : Nat) : List Nat :=
  blocks (fun x => encPixel data ((y * w + x) * 4)) w ++ List.replicate pad 0

/-- The pixel area written by the encode loops (lines 263-279): destination
row `d` holds source row `h - 1 - d` (bottom-up order). -/
def encPixelArea (data : List Nat) (w h rs3 : Nat) : List Nat :=
  blocks (fun d => encRow data w (h - 1 - d) (rs3 - 3 * w)) h

/-- The error case of `bare_bmp_encode`. -/
inductive EncodeError
  | bufferTooSmall
deriving DecidableEq, Repr

/-- Model of `bare_bmp_encode` (`src/binding.c`, lines 176-287).  `w` and `h`
are the `int64_t` values obtained from the input object; the length check is
C's `rgba_len < (size_t)(width * height * 4)` (the cast is `% 2^64`), the row
size is computed in `int64_t` and narrowed to `uint32_t`, and
`pixel_data_size` and `file_size` are `uint32_t`. -/
def encode (w h : Int) (data : List Nat) : Except EncodeError (List Nat) :=
  if (data.length : Int) < w * h * 4 % (2 ^ 64 : Int) then
    .error .bufferTooSmall
  else
    let rs3 : Nat := (((w * 3 + 3).tdiv 4 * 4) % (2 ^ 32 : Int)).toNat
    let pds : Nat := ((rs3 : Int) * h % (2 ^ 32 : Int)).toNat
    let fs : Nat := (54 + pds) % 2 ^ 32
    .ok (encodeHeader fs (u32ofInt w) (u32ofInt h) pds ++
      encPixelArea data w.toNat h.toNat rs3)

/-- The error produced by `bare_bmp_encode_animated`. -/
inductive AnimatedError
  | notSupported
deriving DecidableEq, Repr

/-- Model of `bare_bmp_encode_animated` (lines 292-297): the arguments are
never inspected and the fixed error is thrown unconditionally. -/
def encodeAnimated (_frames : List Image) (_opts : List Nat) :
    Except AnimatedError (List Nat) :=
  .error .notSupported

/-- Alpha normalization: the byte buffer with every fourth byte (the alpha
channel) replaced by 255.  Used to state the lossy part of the round trip. -/
def setAlpha (l : List Nat) : List Nat :=
  (List.range l.length).map fun i => if i % 4 = 3 then 255 else l.getD i 0

/-- The pixel-extent bound that `bare_bmp_decode` line 108 compares against
the input length, computed as the C code computes it (all in `uint32_t`). -/
def wrappedExtent (bmp : List Nat) : Nat :=
  (readU32 bmp 10 +
      rowSize (readI32 bmp 18) (readU16 bmp 28 / 8) *
        u32ofInt (absInt (readI32 bmp 22)) % 2 ^ 32) % 2 ^ 32

/-- Decidable equality for `Except` results, so that witnesses and
counterexamples evaluate by `decide`. -/
instance decEqExcept {ε α : Type} [DecidableEq ε] [DecidableEq α] :
    DecidableEq (Except ε α) := fun x y =>
  match x, y with
  | .ok a, .ok b =>
    if h : a = b then isTrue (by rw [h])
    else isFalse (by simp [Except.ok.injEq, h])
  | .error a, .error b =>
    if h : a = b then isTrue (by rw [h])
    else isFalse (by simp [Except.error.injEq, h])
  | .ok _, .error _ => isFalse (by simp)
  | .error _, .ok _ => isFalse (by simp)

/-! ## Basic facts about the byte readers and integer conversions -/

theorem byteAt_lt (b : List Nat) (i : Nat) : byteAt b i < 256 :=
  Nat.mod_lt _ (by omega)

theorem readU16_lt (b : List Nat) (i : Nat) : readU16 b i < 2 ^ 16 := by
  have h1 := byteAt_lt b i
  have h2 := byteAt_lt b (i + 1)
  unfold readU16
  omega

theorem readU32_lt (b : List Nat) (i : Nat) : readU32 b i < 2 ^ 32 := by
  have h1 := byteAt_lt b i
  have h2 := byteAt_lt b (i + 1)
  have h3 := byteAt_lt b (i + 2)
  have h4 := byteAt_lt b (i + 3)
  unfold readU32
  omega

theorem toI32_range (n : Nat) : -2 ^ 31 ≤ toI32 n ∧ toI32 n < 2 ^ 31 := by
  unfold toI32
  split <;> omega

theorem readI32_range (b : List Nat) (i : Nat) :
    -2 ^ 31 ≤ readI32 b i ∧ readI32 b i < 2 ^ 31 :=
  toI32_range _

theorem u32ofInt_lt (x : Int) : u32ofInt x < 2 ^ 32 := by
  unfold u32ofInt
  omega

theorem u32ofInt_of_nonneg (x : Int) (h0 : 0 ≤ x) (h1 : x < 2 ^ 32) :
    u32ofInt x = x.toNat := by
  unfold u32ofInt
  omega

theorem toI32_u32ofInt (x : Int) (h0 : -2 ^ 31 ≤ x) (h1 : x < 2 ^ 31) :
    toI32 (u32ofInt x) = x := by
  unfold toI32 u32ofInt
  split <;> omega

theorem absInt_toI32_u32ofInt (a : Int) (h0 : 0 ≤ a) (h1 : a ≤ 2 ^ 31) :
    absInt (toI32 (u32ofInt a)) = a := by
  unfold absInt toI32 u32ofInt
  split <;> split <;> omega

theorem u32_recompose (n : Nat) (h : n < 2 ^ 32) :
    n % 256 % 256 + 256 * (n / 256 % 256 % 256) + 65536 * (n / 65536 % 256 % 256) +
      16777216 * (n / 16777216 % 256 % 256) = n := by
  omega

/-! ## Facts about `blocks`, the shape of all four pixel loops -/

theorem blocks_length (f : Nat → List Nat) (k : Nat) (hf : ∀ i, (f i).length = k) :
    ∀ n, (blocks f n).length = n * k := by
  intro n
  induction n with
  | zero => simp [blocks]
  | succ m ih =>
    simp only [blocks, List.length_append, ih, hf]
    ring

theorem blocks_getD (f : Nat → List Nat) (k : Nat) (hf : ∀ i, (f i).length = k) :
    ∀ n q r, q < n → r < k → (blocks f n).getD (q * k + r) 0 = (f q).getD r 0 := by
  intro n
  induction n with
  | zero => intro q r hq _; omega
  | succ m ih =>
    intro q r hq hr
    by_cases hqm : q < m
    · have hidx : q * k + r < (blocks f m).length := by
        rw [blocks_length f k hf m]
        calc q * k + r < q * k + k := by omega
          _ = (q + 1) * k := by ring
          _ ≤ m * k := Nat.mul_le_mul_right k hqm
      rw [blocks, List.getD_append _ _ _ _ hidx]
      exact ih q r hqm hr
    · have hq' : q = m := by omega
      subst hq'
      have hlen : (blocks f q).length = q * k := blocks_length f k hf q
      rw [blocks, List.getD_append_right _ _ _ _ (by omega), hlen]
      congr 1
      omega

theorem blocks_getD_lt (f : Nat → List Nat)
    (hf : ∀ i j, (f i).getD j 0 < 256) :
    ∀ n j, (blocks f n).getD j 0 < 256 := by
  intro n
  induction n with
  | zero => intro j; simp [blocks, List.getD]
  | succ m ih =>
    intro j
    by_cases hj : j < (blocks f m).length
    · rw [blocks, List.getD_append _ _ _ _ hj]
      exact ih j
    · rw [blocks, List.getD_append_right _ _ _ _ (by omega)]
      exact hf m _

theorem blocks_extract (f : Nat → List Nat) (k : Nat) (hf : ∀ i, (f i).length = k) :
    ∀ n q, q < n → ((blocks f n).drop (q * k)).take k = f q := by
  intro n
  induction n with
  | zero => intro q hq; omega
  | succ m ih =>
    intro q hq
    have hlen : (blocks f m).length = m * k := blocks_length f k hf m
    by_cases hqm : q < m
    · have hle : q * k ≤ (blocks f m).length := by
        rw [hlen]; exact Nat.mul_le_mul_right k (by omega)
      rw [blocks, List.drop_append_of_le_length hle]
      have hdlen : k ≤ ((blocks f m).drop (q * k)).length := by
        rw [List.length_drop, hlen]
        have : (q + 1) * k ≤ m * k := Nat.mul_le_mul_right k hqm
        calc k = (q + 1) * k - q * k := by ring_nf; omega
          _ ≤ m * k - q * k := by omega
      rw [List.take_append_of_le_length hdlen]
      exact ih q hqm
    · have hq' : q = m := by omega
      subst hq'
      rw [blocks, ← hlen, List.drop_append_of_le_length (le_refl _),
        List.drop_length, List.nil_append, ← hf q, List.take_length]

/-! ## Characterization of `decode` -/

/-- The five validation checks of `bare_bmp_decode` in claim language. -/
def headerChecks (bmp : List Nat) : Prop :=
  54 ≤ bmp.length ∧ readU16 bmp 0 = 0x4D42 ∧ readU32 bmp 14 = 40 ∧
    readU32 bmp 30 = 0 ∧ (readU16 bmp 28 = 24 ∨ readU16 bmp 28 = 32)

instance (bmp : List Nat) : Decidable (headerChecks bmp) := by
  unfold headerChecks
  infer_instance

/-- Unfolding lemma: on inputs passing all checks, `decode` succeeds with the
image assembled by the conversion loops. -/
theorem decode_eq_ok (bmp : List Nat) (hc : headerChecks bmp)
    (h6 : ¬ bmp.length < wrappedExtent bmp)
    (h7 : 0 ≤ readI32 bmp 18 * absInt (readI32 bmp 22) * 4 ∧
      readI32 bmp 18 * absInt (readI32 bmp 22) * 4 < 2 ^ 31) :
    decode bmp = .ok
      ⟨readI32 bmp 18, absInt (readI32 bmp 22),
        decodePixels bmp (readU32 bmp 10)
          (rowSize (readI32 bmp 18) (readU16 bmp 28 / 8)) (readU16 bmp 28 / 8)
          (readU16 bmp 28) (decide (readI32 bmp 22 < 0)) (readI32 bmp 18).toNat
          (absInt (readI32 bmp 22)).toNat⟩ := by
  obtain ⟨hc1, hc2, hc3, hc4, hc5⟩ := hc
  unfold decode
  rw [if_neg (by omega), if_neg (by simp [hc2]), if_neg (by simp [hc3]),
    if_neg (by simp [hc4]), if_neg (by simp [hc5])]
  unfold wrappedExtent at h6
  rw [if_neg h6, if_neg (not_not_intro h7)]

/-- Inversion lemma: a successful decode implies all checks passed and fixes
every component of the image. -/
theorem decode_ok_inv (bmp : List Nat) (img : Image)
    (h : decode bmp = .ok img) :
    headerChecks bmp ∧ ¬ bmp.length < wrappedExtent bmp ∧
      (0 ≤ readI32 bmp 18 * absInt (readI32 bmp 22) * 4 ∧
        readI32 bmp 18 * absInt (readI32 bmp 22) * 4 < 2 ^ 31) ∧
      img = ⟨readI32 bmp 18, absInt (readI32 bmp 22),
        decodePixels bmp (readU32 bmp 10)
          (rowSize (readI32 bmp 18) (readU16 bmp 28 / 8)) (readU16 bmp 28 / 8)
          (readU16 bmp 28) (decide (readI32 bmp 22 < 0)) (readI32 bmp 18).toNat
          (absInt (readI32 bmp 22)).toNat⟩ := by
  unfold decode at h
  by_cases h1 : bmp.length < 54
  · rw [if_pos h1] at h; exact absurd h (by simp)
  rw [if_neg h1] at h
  by_cases h2 : readU16 bmp 0 = 0x4D42
  swap
  · rw [if_pos h2] at h; exact absurd h (by simp)
  rw [if_neg (by simp [h2])] at h
  by_cases h3 : readU32 bmp 14 = 40
  swap
  · rw [if_pos h3] at h; exact absurd h (by simp)
  rw [if_neg (by simp [h3])] at h
  by_cases h4 : readU32 bmp 30 = 0
  swap
  · rw [if_pos h4] at h; exact absurd h (by simp)
  rw [if_neg (by simp [h4])] at h
  by_cases h5 : readU16 bmp 28 = 24 ∨ readU16 bmp 28 = 32
  swap
  · rw [if_pos h5] at h; exact absurd h (by simp)
  rw [if_neg (by simp [h5])] at h
  simp only at h
  by_cases h6 : bmp.length <
      (readU32 bmp 10 +
        rowSize (readI32 bmp 18) (readU16 bmp 28 / 8) *
          u32ofInt (absInt (readI32 bmp 22)) % 2 ^ 32) % 2 ^ 32
  · rw [if_pos h6] at h; exact absurd h (by simp)
  rw [if_neg h6] at h
  by_cases h7 : 0 ≤ readI32 bmp 18 * absInt (readI32 bmp 22) * 4 ∧
      readI32 bmp 18 * absInt (readI32 bmp 22) * 4 < 2 ^ 31
  swap
  · rw [if_pos (by push_neg; push_neg at h7; omega)] at h
    exact absurd h (by simp)
  rw [if_neg (not_not_intro h7)] at h
  refine ⟨⟨by omega, h2, h3, h4, h5⟩, ?_, h7, ?_⟩
  · unfold wrappedExtent; exact h6
  · exact (Except.ok.injEq _ _ ▸ h).symm

/-! ## Shape of the decoded pixel buffer -/

theorem decodePixel_length (bmp : List Nat) (p bpp : Nat) :
    (decodePixel bmp p bpp).length = 4 := rfl

theorem decodePixel_getD_lt (bmp : List Nat) (p bpp j : Nat) :
    (decodePixel bmp p bpp).getD j 0 < 256 := by
  rcases j with _ | _ | _ | _ | j <;>
    simp only [decodePixel, List.getD_cons_zero, List.getD_cons_succ, List.getD_nil]
  · exact byteAt_lt _ _
  · exact byteAt_lt _ _
  · exact byteAt_lt _ _
  · split
    · exact byteAt_lt _ _
    · omega
  · omega

theorem decodeRow_length (bmp : List Nat) (base bpx bpp w : Nat) :
    (decodeRow bmp base bpx bpp w).length = w * 4 :=
  blocks_length _ 4 (fun x => decodePixel_length bmp (base + x * bpx) bpp) w

theorem decodePixels_length (bmp : List Nat) (off rs bpx bpp : Nat)
    (td : Bool) (w h : Nat) :
    (decodePixels bmp off rs bpx bpp td w h).length = h * (w * 4) :=
  blocks_length _ (w * 4) (fun _ => decodeRow_length bmp _ bpx bpp w) h

theorem decodePixels_getD (bmp : List Nat) (off rs bpx bpp : Nat)
    (td : Bool) (w h y x c : Nat) (hy : y < h) (hx : x < w) (hc : c < 4) :
    (decodePixels bmp off rs bpx bpp td w h).getD ((y * w + x) * 4 + c) 0 =
      (decodePixel bmp (off + (if td then y else h - 1 - y) * rs + x * bpx)
          bpp).getD c 0 := by
  have hidx : (y * w + x) * 4 + c = y * (w * 4) + (x * 4 + c) := by ring
  rw [hidx, decodePixels,
    blocks_getD _ (w * 4) (fun _ => decodeRow_length bmp _ bpx bpp w) h y
      (x * 4 + c) hy (by omega),
    decodeRow, blocks_getD _ 4 (fun i => decodePixel_length bmp _ bpp) w x c hx hc]

theorem decodePixels_getD_lt (bmp : List Nat) (off rs bpx bpp : Nat)
    (td : Bool) (w h j : Nat) :
    (decodePixels bmp off rs bpx bpp td w h).getD j 0 < 256 := by
  refine blocks_getD_lt _ (fun y j' => ?_) h j
  exact blocks_getD_lt _ (fun x j'' => decodePixel_getD_lt bmp _ bpp j'') w j'

theorem decodePixels_row (bmp : List Nat) (off rs bpx bpp : Nat)
    (td : Bool) (w h y : Nat) (hy : y < h) :
    ((decodePixels bmp off rs bpx bpp td w h).drop (y * (w * 4))).take (w * 4) =
      decodeRow bmp (off + (if td then y else h - 1 - y) * rs) bpx bpp w :=
  blocks_extract _ (w * 4) (fun _ => decodeRow_length bmp _ bpx bpp w) h y hy

/-- Unfolding lemma for the allocation-failure path. -/
theorem decode_eq_allocFailed (bmp : List Nat) (hc : headerChecks bmp)
    (h6 : ¬ bmp.length < wrappedExtent bmp)
    (h7 : ¬ (0 ≤ readI32 bmp 18 * absInt (readI32 bmp 22) * 4 ∧
      readI32 bmp 18 * absInt (readI32 bmp 22) * 4 < 2 ^ 31)) :
    decode bmp = .error .allocFailed := by
  obtain ⟨hc1, hc2, hc3, hc4, hc5⟩ := hc
  unfold decode
  rw [if_neg (by omega), if_neg (by simp [hc2]), if_neg (by simp [hc3]),
    if_neg (by simp [hc4]), if_neg (by simp [hc5])]
  unfold wrappedExtent at h6
  rw [if_neg h6, if_pos (by push_neg; push_neg at h7; omega)]

/-! ## Concrete inputs used by witnesses and counterexamples -/

/-- A minimal 1x1 24-bit BMP (the buffer built by the repository's own
`decode 24-bit BMP` test in `index.js`): 54 header bytes plus one padded
pixel row `[B=0, G=0, R=255, pad]`. -/
def bmp24x1 : List Nat :=
  [0x42, 0x4D, 58, 0, 0, 0, 0, 0, 0, 0, 54, 0, 0, 0,
   40, 0, 0, 0, 1, 0, 0, 0, 1, 0, 0, 0, 1, 0, 24, 0, 0, 0, 0, 0,
   0, 0, 0, 0, 0, 0, 0, 0, 0, 0, 0, 0, 0, 0, 0, 0, 0, 0, 0, 0,
   0, 0, 255, 0]

/-- A 1x2 24-bit bottom-up BMP whose two rows hold distinguishable bytes. -/
def bmp24x2up : List Nat :=
  [0x42, 0x4D, 62, 0, 0, 0, 0, 0, 0, 0, 54, 0, 0, 0,
   40, 0, 0, 0, 1, 0, 0, 0, 2, 0, 0, 0, 1, 0, 24, 0, 0, 0, 0, 0,
   0, 0, 0, 0, 0, 0, 0, 0, 0, 0, 0, 0, 0, 0, 0, 0, 0, 0, 0, 0,
   1, 2, 3, 0, 4, 5, 6, 0]

/-- The same image as a top-down BMP: the height field holds -2
(bytes FE FF FF FF). -/
def bmp24x2down : List Nat :=
  [0x42, 0x4D, 62, 0, 0, 0, 0, 0, 0, 0, 54, 0, 0, 0,
   40, 0, 0, 0, 1, 0, 0, 0, 0xFE, 0xFF, 0xFF, 0xFF, 1, 0, 24, 0, 0, 0, 0, 0,
   0, 0, 0, 0, 0, 0, 0, 0, 0, 0, 0, 0, 0, 0, 0, 0, 0, 0, 0, 0,
   1, 2, 3, 0, 4, 5, 6, 0]

/-- A 1x1 32-bit BMP whose pixel is `[B=10, G=20, R=30, A=7]`. -/
def bmp32x1 : List Nat :=
  [0x42, 0x4D, 58, 0, 0, 0, 0, 0, 0, 0, 54, 0, 0, 0,
   40, 0, 0, 0, 1, 0, 0, 0, 1, 0, 0, 0, 1, 0, 32, 0, 0, 0, 0, 0,
   0, 0, 0, 0, 0, 0, 0, 0, 0, 0, 0, 0, 0, 0, 0, 0, 0, 0, 0, 0,
   10, 20, 30, 7]

/-- A 54-byte input with `data_offset = 0xFFFFFFFC`, width 1, height 1,
24 bpp: the exact pixel extent is `0xFFFFFFFC + 4 = 2^32 > 54`, but the
`uint32_t` sum wraps to 0, so the truncation check passes. -/
def c5input : List Nat :=
  [0x42, 0x4D, 0, 0, 0, 0, 0, 0, 0, 0, 0xFC, 0xFF, 0xFF, 0xFF,
   40, 0, 0, 0, 1, 0, 0, 0, 1, 0, 0, 0, 1, 0, 24, 0, 0, 0, 0, 0,
   0, 0, 0, 0, 0, 0, 0, 0, 0, 0, 0, 0, 0, 0, 0, 0, 0, 0, 0, 0]

/-- A 54-byte input with width 0 and height 0: every check passes and decode
returns a zero-dimension image. -/
def c6input : List Nat :=
  [0x42, 0x4D, 0, 0, 0, 0, 0, 0, 0, 0, 54, 0, 0, 0,
   40, 0, 0, 0, 0, 0, 0, 0, 0, 0, 0, 0, 1, 0, 24, 0, 0, 0, 0, 0,
   0, 0, 0, 0, 0, 0, 0, 0, 0, 0, 0, 0, 0, 0, 0, 0, 0, 0, 0, 0]

/-- A 54-byte input with width = height = 2^20 and `data_offset = 0`: the
`uint32_t` product `row_size * abs_height = 3·2^40` wraps to 0, so every
validation check passes, but the RGBA allocation size `2^42` overflows
`int32_t` and the allocation fails. -/
def c10input : List Nat :=
  [0x42, 0x4D, 0, 0, 0, 0, 0, 0, 0, 0, 0, 0, 0, 0,
   40, 0, 0, 0, 0, 0, 16, 0, 0, 0, 16, 0, 1, 0, 24, 0, 0, 0, 0, 0,
   0, 0, 0, 0, 0, 0, 0, 0, 0, 0, 0, 0, 0, 0, 0, 0, 0, 0, 0, 0]

/-- A 54-byte 1x1 24-bit input with `data_offset = 2`: the pixel bytes are
read from inside the header itself (bytes 2,3,4 hold 9,8,7). -/
def c10small : List Nat :=
  [0x42, 0x4D, 9, 8, 7, 0, 0, 0, 0, 0, 2, 0, 0, 0,
   40, 0, 0, 0, 1, 0, 0, 0, 1, 0, 0, 0, 1, 0, 24, 0, 0, 0, 0, 0,
   0, 0, 0, 0, 0, 0, 0, 0, 0, 0, 0, 0, 0, 0, 0, 0, 0, 0, 0, 0]

/-! ## Claim C4: validation order -/

/-- C4: decode performs its validation checks in the fixed order
length ≥ 54 (TooSmall), magic 0x42,0x4D (BadMagic), DIB header size 40
(UnsupportedHeader), compression 0 (UnsupportedCompression), bpp in {24,32}
(UnsupportedBitDepth), returning the error of the first failing check; in
particular any input of length ≥ 54 whose first two bytes are not 0x42,0x4D
fails with BadMagic regardless of remaining content. -/
theorem decode_check_order (bmp : List Nat) :
    (bmp.length < 54 → decode bmp = .error .tooSmall) ∧
    (54 ≤ bmp.length → ¬ (byteAt bmp 0 = 0x42 ∧ byteAt bmp 1 = 0x4D) →
      decode bmp = .error .badMagic) ∧
    (54 ≤ bmp.length → readU16 bmp 0 = 0x4D42 → ¬ readU32 bmp 14 = 40 →
      decode bmp = .error .unsupportedHeader) ∧
    (54 ≤ bmp.length → readU16 bmp 0 = 0x4D42 → readU32 bmp 14 = 40 →
      ¬ readU32 bmp 30 = 0 → decode bmp = .error .unsupportedCompression) ∧
    (54 ≤ bmp.length → readU16 bmp 0 = 0x4D42 → readU32 bmp 14 = 40 →
      readU32 bmp 30 = 0 → ¬ (readU16 bmp 28 = 24 ∨ readU16 bmp 28 = 32) →
      decode bmp = .error .unsupportedBitDepth) := by
  have hmagic : readU16 bmp 0 = 0x4D42 ↔ (byteAt bmp 0 = 0x42 ∧ byteAt bmp 1 = 0x4D) := by
    have h0 := byteAt_lt bmp 0
    have h1 := byteAt_lt bmp 1
    simp only [readU16, Nat.zero_add]
    omega
  refine ⟨fun h1 => ?_, fun h1 h2 => ?_, fun h1 h2 h3 => ?_,
    fun h1 h2 h3 h4 => ?_, fun h1 h2 h3 h4 h5 => ?_⟩
  · unfold decode; rw [if_pos h1]
  · unfold decode
    rw [if_neg (by omega), if_pos (by simpa [hmagic] using h2)]
  · unfold decode
    rw [if_neg (by omega), if_neg (by simp [h2]), if_pos (by simpa using h3)]
  · unfold decode
    rw [if_neg (by omega), if_neg (by simp [h2]), if_neg (by simp [h3]),
      if_pos (by simpa using h4)]
  · unfold decode
    rw [if_neg (by omega), if_neg (by simp [h2]), if_neg (by simp [h3]),
      if_neg (by simp [h4]), if_pos (by simpa using h5)]

/-- Witness for C4: concrete inputs taking the TooSmall and BadMagic paths. -/
theorem decode_check_order_witness :
    decode [] = .error .tooSmall ∧
      decode (List.replicate 54 7) = .error .badMagic :=
  ⟨(decode_check_order []).1 (by decide),
   (decode_check_order (List.replicate 54 7)).2.1 (by decide) (by decide)⟩

/-! ## Claim C5: the truncation check arithmetic wraps modulo 2^32 -/

/-- Counterexample to C5 as stated: on `c5input` the exact pixel extent
`data_offset + stride·|height| = 0xFFFFFFFC + 4·1 = 2^32` exceeds the input
length 54, yet decode does not fail with TruncatedData (the `uint32_t` sum
wraps to 0 and the check passes). -/
theorem c5_counterexample :
    readU32 c5input 10 + ((1 * 3 + 3) / 4 * 4) * 1 = 2 ^ 32 ∧
      c5input.length = 54 ∧
      decode c5input ≠ .error .truncatedData := by decide

/-- C5 amended: for inputs passing checks 1-5, decode fails with
TruncatedData exactly when `data_offset + stride × |height|`, computed in
32-bit wrapping (mod 2^32) arithmetic as the C code computes it, exceeds the
input length. -/
theorem truncation_check_wrapped (bmp : List Nat) (hc : headerChecks bmp) :
    decode bmp = .error .truncatedData ↔ bmp.length < wrappedExtent bmp := by
  constructor
  · intro h
    by_contra h6
    by_cases h7 : 0 ≤ readI32 bmp 18 * absInt (readI32 bmp 22) * 4 ∧
        readI32 bmp 18 * absInt (readI32 bmp 22) * 4 < 2 ^ 31
    · rw [decode_eq_ok bmp hc h6 h7] at h
      exact absurd h (by simp)
    · rw [decode_eq_allocFailed bmp hc h6 h7] at h
      exact absurd h (by simp)
  · intro h6
    obtain ⟨hc1, hc2, hc3, hc4, hc5⟩ := hc
    unfold decode
    rw [if_neg (by omega), if_neg (by simp [hc2]), if_neg (by simp [hc3]),
      if_neg (by simp [hc4]), if_neg (by simp [hc5])]
    unfold wrappedExtent at h6
    rw [if_pos h6]

/-- Witness for the amended C5: a truncated 1x1 file (pixel row missing)
fails with TruncatedData, as the wrapped extent 58 exceeds the length 54. -/
theorem truncation_check_wrapped_witness :
    decode (List.take 54 bmp24x1) = .error .truncatedData :=
  (truncation_check_wrapped (List.take 54 bmp24x1) (by decide)).mpr (by decide)

/-! ## Claim C6: dimensions of a successful decode -/

/-- Counterexample to C6 as stated: an input with width 0 and height 0
passes every check, so decode succeeds with a zero width and height, which
are not positive integers. -/
theorem c6_counterexample : decode c6input = .ok ⟨0, 0, []⟩ := by decide

/-- C6 amended: on success the returned width is the signed width field
(positivity is not validated), the returned height is |height field| and is
nonnegative (sign already resolved, but possibly zero), and the returned
buffer holds exactly max(width,0) × height × 4 bytes. -/
theorem decode_dims (bmp : List Nat) (img : Image)
    (h : decode bmp = .ok img) :
    0 ≤ img.height ∧ img.width = readI32 bmp 18 ∧
      img.height = absInt (readI32 bmp 22) ∧
      img.data.length = img.width.toNat * img.height.toNat * 4 := by
  obtain ⟨hc, h6, h7, himg⟩ := decode_ok_inv bmp img h
  subst himg
  refine ⟨?_, rfl, rfl, ?_⟩
  · dsimp only
    unfold absInt
    split <;> omega
  · dsimp only
    rw [decodePixels_length]
    ring

/-- Witness for the amended C6 at the repository's own 1x1 test vector. -/
theorem decode_dims_witness :
    0 ≤ (1 : Int) ∧ (1 : Int) = readI32 bmp24x1 18 ∧
      (1 : Int) = absInt (readI32 bmp24x1 22) ∧
      [255, 0, 0, 255].length = (1 : Int).toNat * (1 : Int).toNat * 4 :=
  decode_dims bmp24x1 ⟨1, 1, [255, 0, 0, 255]⟩ (by decide)

/-! ## Claim C9: animated encode always fails -/

/-- C9: the animated-encode operation fails with the fixed NotSupported
error on every call, performing no other work and producing no output. -/
theorem encodeAnimated_always_fails (frames : List Image) (opts : List Nat) :
    encodeAnimated frames opts = .error .notSupported := rfl

/-! ## Claim C2: per-pixel channel conversion -/

/-- C2: each output pixel is produced by reading `bytes_per_pixel` source
bytes in B,G,R[,A] order at
`data_offset + src_row·stride + x·bytes_per_pixel` and writing them as
R,G,B,A; for a 24-bit source the destination alpha is 255, for a 32-bit
source it is the source's fourth channel byte. -/
theorem decode_pixel_channels (bmp : List Nat) (img : Image)
    (h : decode bmp = .ok img) (y x : Nat)
    (hy : y < img.height.toNat) (hx : x < img.width.toNat) :
    [img.data.getD ((y * img.width.toNat + x) * 4) 0,
      img.data.getD ((y * img.width.toNat + x) * 4 + 1) 0,
      img.data.getD ((y * img.width.toNat + x) * 4 + 2) 0,
      img.data.getD ((y * img.width.toNat + x) * 4 + 3) 0] =
    [byteAt bmp (readU32 bmp 10 +
        (if readI32 bmp 22 < 0 then y else img.height.toNat - 1 - y) *
          rowSize (readI32 bmp 18) (readU16 bmp 28 / 8) +
        x * (readU16 bmp 28 / 8) + 2),
      byteAt bmp (readU32 bmp 10 +
        (if readI32 bmp 22 < 0 then y else img.height.toNat - 1 - y) *
          rowSize (readI32 bmp 18) (readU16 bmp 28 / 8) +
        x * (readU16 bmp 28 / 8) + 1),
      byteAt bmp (readU32 bmp 10 +
        (if readI32 bmp 22 < 0 then y else img.height.toNat - 1 - y) *
          rowSize (readI32 bmp 18) (readU16 bmp 28 / 8) +
        x * (readU16 bmp 28 / 8)),
      if readU16 bmp 28 = 32 then
        byteAt bmp (readU32 bmp 10 +
          (if readI32 bmp 22 < 0 then y else img.height.toNat - 1 - y) *
            rowSize (readI32 bmp 18) (readU16 bmp 28 / 8) +
          x * (readU16 bmp 28 / 8) + 3)
      else 255] := by
  obtain ⟨hc, h6, h7, himg⟩ := decode_ok_inv bmp img h
  subst himg
  dsimp only at hy hx ⊢
  have hrow : ∀ c, c < 4 →
      (decodePixels bmp (readU32 bmp 10)
          (rowSize (readI32 bmp 18) (readU16 bmp 28 / 8)) (readU16 bmp 28 / 8)
          (readU16 bmp 28) (decide (readI32 bmp 22 < 0)) (readI32 bmp 18).toNat
          (absInt (readI32 bmp 22)).toNat).getD
        ((y * (readI32 bmp 18).toNat + x) * 4 + c) 0 =
      (decodePixel bmp (readU32 bmp 10 +
          (if readI32 bmp 22 < 0 then y else (absInt (readI32 bmp 22)).toNat - 1 - y) *
            rowSize (readI32 bmp 18) (readU16 bmp 28 / 8) +
          x * (readU16 bmp 28 / 8)) (readU16 bmp 28)).getD c 0 := by
    intro c hcd
    rw [decodePixels_getD bmp _ _ _ _ _ _ _ y x c hy hx hcd]
    by_cases hneg : readI32 bmp 22 < 0 <;> simp [hneg]
  have h0 := hrow 0 (by omega)
  have h1 := hrow 1 (by omega)
  have h2 := hrow 2 (by omega)
  have h3 := hrow 3 (by omega)
  rw [show (y * (readI32 bmp 18).toNat + x) * 4 + 0 =
    (y * (readI32 bmp 18).toNat + x) * 4 by omega] at h0
  rw [h0, h1, h2, h3]
  simp only [decodePixel, List.getD_cons_zero, List.getD_cons_succ]

/-- Witness for C2 at the repository's 1x1 test vector: the single pixel of
`bmp24x1` satisfies the channel formulas (R=255 from source byte offset 56,
alpha forced to 255). -/
theorem decode_pixel_channels_witness :
    [([255, 0, 0, 255] : List Nat).getD ((0 * (1 : Int).toNat + 0) * 4) 0,
      ([255, 0, 0, 255] : List Nat).getD ((0 * (1 : Int).toNat + 0) * 4 + 1) 0,
      ([255, 0, 0, 255] : List Nat).getD ((0 * (1 : Int).toNat + 0) * 4 + 2) 0,
      ([255, 0, 0, 255] : List Nat).getD ((0 * (1 : Int).toNat + 0) * 4 + 3) 0] =
    [byteAt bmp24x1 (readU32 bmp24x1 10 +
        (if readI32 bmp24x1 22 < 0 then 0 else (1 : Int).toNat - 1 - 0) *
          rowSize (readI32 bmp24x1 18) (readU16 bmp24x1 28 / 8) +
        0 * (readU16 bmp24x1 28 / 8) + 2),
      byteAt bmp24x1 (readU32 bmp24x1 10 +
        (if readI32 bmp24x1 22 < 0 then 0 else (1 : Int).toNat - 1 - 0) *
          rowSize (readI32 bmp24x1 18) (readU16 bmp24x1 28 / 8) +
        0 * (readU16 bmp24x1 28 / 8) + 1),
      byteAt bmp24x1 (readU32 bmp24x1 10 +
        (if readI32 bmp24x1 22 < 0 then 0 else (1 : Int).toNat - 1 - 0) *
          rowSize (readI32 bmp24x1 18) (readU16 bmp24x1 28 / 8) +
        0 * (readU16 bmp24x1 28 / 8)),
      if readU16 bmp24x1 28 = 32 then
        byteAt bmp24x1 (readU32 bmp24x1 10 +
          (if readI32 bmp24x1 22 < 0 then 0 else (1 : Int).toNat - 1 - 0) *
            rowSize (readI32 bmp24x1 18) (readU16 bmp24x1 28 / 8) +
          0 * (readU16 bmp24x1 28 / 8) + 3)
      else 255] :=
  decode_pixel_channels bmp24x1 ⟨1, 1, [255, 0, 0, 255]⟩ (by decide) 0 0
    (by decide) (by decide)

/-! ## Claim C3: row-order normalization -/

/-- C3: each output row `y` of a successful decode is filled from source
row `y` when the height field is negative (top-down), and from source row
`abs_height - 1 - y` otherwise, so the returned buffer is always in top-down
row order; the returned height is `|height field|`. -/
theorem decode_row_order (bmp : List Nat) (img : Image)
    (h : decode bmp = .ok img) (y : Nat) (hy : y < img.height.toNat) :
    ((img.data.drop (y * (img.width.toNat * 4))).take (img.width.toNat * 4) =
      decodeRow bmp
        (readU32 bmp 10 +
          (if readI32 bmp 22 < 0 then y else img.height.toNat - 1 - y) *
            rowSize (readI32 bmp 18) (readU16 bmp 28 / 8))
        (readU16 bmp 28 / 8) (readU16 bmp 28) img.width.toNat) ∧
      img.height = absInt (readI32 bmp 22) := by
  obtain ⟨hc, h6, h7, himg⟩ := decode_ok_inv bmp img h
  subst himg
  dsimp only at hy ⊢
  refine ⟨?_, rfl⟩
  rw [decodePixels_row bmp _ _ _ _ _ _ _ y hy]
  by_cases hneg : readI32 bmp 22 < 0 <;> simp [hneg]

/-- Witness for C3 at the two-row inputs: the bottom-up file yields rows in
reflected order and the top-down file in file order. -/
theorem decode_row_order_witness :
    ((([6, 5, 4, 255, 3, 2, 1, 255] : List Nat).drop (0 * ((1 : Int).toNat * 4))).take
        ((1 : Int).toNat * 4) =
      decodeRow bmp24x2up
        (readU32 bmp24x2up 10 +
          (if readI32 bmp24x2up 22 < 0 then 0 else (2 : Int).toNat - 1 - 0) *
            rowSize (readI32 bmp24x2up 18) (readU16 bmp24x2up 28 / 8))
        (readU16 bmp24x2up 28 / 8) (readU16 bmp24x2up 28) (1 : Int).toNat) ∧
    ((([3, 2, 1, 255, 6, 5, 4, 255] : List Nat).drop (0 * ((1 : Int).toNat * 4))).take
        ((1 : Int).toNat * 4) =
      decodeRow bmp24x2down
        (readU32 bmp24x2down 10 +
          (if readI32 bmp24x2down 22 < 0 then 0 else (2 : Int).toNat - 1 - 0) *
            rowSize (readI32 bmp24x2down 18) (readU16 bmp24x2down 28 / 8))
        (readU16 bmp24x2down 28 / 8) (readU16 bmp24x2down 28) (1 : Int).toNat) :=
  ⟨(decode_row_order bmp24x2up ⟨1, 2, [6, 5, 4, 255, 3, 2, 1, 255]⟩ (by decide) 0
      (by decide)).1,
   (decode_row_order bmp24x2down ⟨1, 2, [3, 2, 1, 255, 6, 5, 4, 255]⟩ (by decide) 0
      (by decide)).1⟩

/-! ## Claim C10: no lower bound on data_offset -/

/-- Counterexample to C10 as stated: `c10input` has length 54 and passes the
magic, header-size, compression, bit-depth, and pixel-extent checks, yet
decode does not succeed: the allocation size `2^20 · 2^20 · 4` overflows
`int32_t` and the RGBA allocation fails. -/
theorem c10_counterexample :
    headerChecks c10input ∧ ¬ c10input.length < wrappedExtent c10input ∧
      decode c10input = .error .allocFailed := by decide

/-- C10 amended: decode imposes no lower bound on the data_offset field.
For every input passing the five header checks and the pixel-extent check
whose RGBA allocation size `width × |height| × 4` fits `int32_t`, decode
succeeds — regardless of the value of data_offset, which may be less than
54, in which case the pixel bytes are read from within the header region
(the conversion loops read starting at byte `data_offset`). -/
theorem decode_any_dataOffset (bmp : List Nat) (hc : headerChecks bmp)
    (h6 : ¬ bmp.length < wrappedExtent bmp)
    (h7 : 0 ≤ readI32 bmp 18 * absInt (readI32 bmp 22) * 4 ∧
      readI32 bmp 18 * absInt (readI32 bmp 22) * 4 < 2 ^ 31) :
    ∃ img : Image, decode bmp = .ok img ∧
      img.data = decodePixels bmp (readU32 bmp 10)
        (rowSize (readI32 bmp 18) (readU16 bmp 28 / 8)) (readU16 bmp 28 / 8)
        (readU16 bmp 28) (decide (readI32 bmp 22 < 0)) (readI32 bmp 18).toNat
        (absInt (readI32 bmp 22)).toNat :=
  ⟨_, decode_eq_ok bmp hc h6 h7, rfl⟩

/-- Witness for the amended C10: `c10small` declares `data_offset = 2`,
inside the header, and decodes successfully with its pixel read from header
bytes 2..4 (the file-size field). -/
theorem decode_any_dataOffset_witness :
    (∃ img : Image, decode c10small = .ok img ∧
      img.data = decodePixels c10small (readU32 c10small 10)
        (rowSize (readI32 c10small 18) (readU16 c10small 28 / 8))
        (readU16 c10small 28 / 8) (readU16 c10small 28)
        (decide (readI32 c10small 22 < 0)) (readI32 c10small 18).toNat
        (absInt (readI32 c10small 22)).toNat) ∧
      readU32 c10small 10 = 2 ∧
      decode c10small = .ok ⟨1, 1, [7, 8, 9, 255]⟩ :=
  ⟨decode_any_dataOffset c10small (by decide) (by decide) (by decide),
   by decide, by decide⟩

/-! ## Shape of the encoded byte stream -/

theorem getD_replicate_zero (n i : Nat) :
    (List.replicate n (0 : Nat)).getD i 0 = 0 := by
  induction n generalizing i with
  | zero => simp [List.getD]
  | succ m ih =>
    cases i with
    | zero => simp [List.replicate_succ]
    | succ j => simp [List.replicate_succ, List.getD_cons_succ, ih]

theorem byteAt_mod (b : List Nat) (i : Nat) : byteAt b i % 256 = byteAt b i :=
  Nat.mod_eq_of_lt (byteAt_lt b i)

theorem encodeHeader_length (fs wf hf pds : Nat) :
    (encodeHeader fs wf hf pds).length = 54 := rfl

theorem encPixel_length (data : List Nat) (idx : Nat) :
    (encPixel data idx).length = 3 := rfl

theorem encPixel_getD (data : List Nat) (idx d : Nat) (hd : d < 3) :
    (encPixel data idx).getD d 0 = byteAt data (idx + (2 - d)) := by
  rcases d with _ | _ | _ | d
  · rfl
  · rfl
  · show byteAt data idx = byteAt data (idx + 0)
    rw [Nat.add_zero]
  · omega

theorem encRow_length (data : List Nat) (w y rs3 : Nat) (h3 : 3 * w ≤ rs3) :
    (encRow data w y (rs3 - 3 * w)).length = rs3 := by
  unfold encRow
  rw [List.length_append, List.length_replicate,
    blocks_length _ 3 (fun x => encPixel_length data _) w]
  omega

theorem encRow_getD_pixel (data : List Nat) (w y pad x d : Nat)
    (hx : x < w) (hd : d < 3) :
    (encRow data w y pad).getD (x * 3 + d) 0 =
      byteAt data ((y * w + x) * 4 + (2 - d)) := by
  unfold encRow
  have hlen : (blocks (fun x => encPixel data ((y * w + x) * 4)) w).length = w * 3 :=
    blocks_length _ 3 (fun x => encPixel_length data _) w
  rw [List.getD_append _ _ _ _ (by rw [hlen]; omega),
    blocks_getD _ 3 (fun x => encPixel_length data _) w x d hx hd,
    encPixel_getD data _ d hd]

theorem encRow_getD_pad (data : List Nat) (w y pad r : Nat) (hr : w * 3 ≤ r) :
    (encRow data w y pad).getD r 0 = 0 := by
  unfold encRow
  have hlen : (blocks (fun x => encPixel data ((y * w + x) * 4)) w).length = w * 3 :=
    blocks_length _ 3 (fun x => encPixel_length data _) w
  rw [List.getD_append_right _ _ _ _ (by omega), getD_replicate_zero]

theorem encPixelArea_length (data : List Nat) (w h rs3 : Nat) (h3 : 3 * w ≤ rs3) :
    (encPixelArea data w h rs3).length = h * rs3 :=
  blocks_length _ rs3 (fun _ => encRow_length data w _ rs3 h3) h

theorem encPixelArea_getD (data : List Nat) (w h rs3 q r : Nat)
    (h3 : 3 * w ≤ rs3) (hq : q < h) (hr : r < rs3) :
    (encPixelArea data w h rs3).getD (q * rs3 + r) 0 =
      (encRow data w (h - 1 - q) (rs3 - 3 * w)).getD r 0 :=
  blocks_getD _ rs3 (fun _ => encRow_length data w _ rs3 h3) h q r hq hr

theorem byteAt_header_append (fs wf hf pds : Nat) (area : List Nat) (j : Nat) :
    byteAt (encodeHeader fs wf hf pds ++ area) (54 + j) = byteAt area j := by
  unfold byteAt
  rw [List.getD_append_right _ _ _ _ (by rw [encodeHeader_length]; omega)]
  congr 2
  rw [encodeHeader_length]
  omega

/-! ## Header field reads of the encoded stream -/

theorem encHdr_read0 (fs wf hf pds : Nat) (t : List Nat) :
    readU16 (encodeHeader fs wf hf pds ++ t) 0 = 0x4D42 := rfl

theorem encHdr_read2 (fs wf hf pds : Nat) (t : List Nat) (h : fs < 2 ^ 32) :
    readU32 (encodeHeader fs wf hf pds ++ t) 2 = fs := by
  have e : readU32 (encodeHeader fs wf hf pds ++ t) 2 =
      fs % 256 % 256 + 256 * (fs / 256 % 256 % 256) +
        65536 * (fs / 65536 % 256 % 256) +
        16777216 * (fs / 16777216 % 256 % 256) := rfl
  rw [e, u32_recompose fs h]

theorem encHdr_read6 (fs wf hf pds : Nat) (t : List Nat) :
    readU16 (encodeHeader fs wf hf pds ++ t) 6 = 0 := rfl

theorem encHdr_read8 (fs wf hf pds : Nat) (t : List Nat) :
    readU16 (encodeHeader fs wf hf pds ++ t) 8 = 0 := rfl

theorem encHdr_read10 (fs wf hf pds : Nat) (t : List Nat) :
    readU32 (encodeHeader fs wf hf pds ++ t) 10 = 54 := rfl

theorem encHdr_read14 (fs wf hf pds : Nat) (t : List Nat) :
    readU32 (encodeHeader fs wf hf pds ++ t) 14 = 40 := rfl

theorem encHdr_read18 (fs wf hf pds : Nat) (t : List Nat) (h : wf < 2 ^ 32) :
    readU32 (encodeHeader fs wf hf pds ++ t) 18 = wf := by
  have e : readU32 (encodeHeader fs wf hf pds ++ t) 18 =
      wf % 256 % 256 + 256 * (wf / 256 % 256 % 256) +
        65536 * (wf / 65536 % 256 % 256) +
        16777216 * (wf / 16777216 % 256 % 256) := rfl
  rw [e, u32_recompose wf h]

theorem encHdr_read22 (fs wf hf pds : Nat) (t : List Nat) (h : hf < 2 ^ 32) :
    readU32 (encodeHeader fs wf hf pds ++ t) 22 = hf := by
  have e : readU32 (encodeHeader fs wf hf pds ++ t) 22 =
      hf % 256 % 256 + 256 * (hf / 256 % 256 % 256) +
        65536 * (hf / 65536 % 256 % 256) +
        16777216 * (hf / 16777216 % 256 % 256) := rfl
  rw [e, u32_recompose hf h]

theorem encHdr_read26 (fs wf hf pds : Nat) (t : List Nat) :
    readU16 (encodeHeader fs wf hf pds ++ t) 26 = 1 := rfl

theorem encHdr_read28 (fs wf hf pds : Nat) (t : List Nat) :
    readU16 (encodeHeader fs wf hf pds ++ t) 28 = 24 := rfl

theorem encHdr_read30 (fs wf hf pds : Nat) (t : List Nat) :
    readU32 (encodeHeader fs wf hf pds ++ t) 30 = 0 := rfl

theorem encHdr_read34 (fs wf hf pds : Nat) (t : List Nat) (h : pds < 2 ^ 32) :
    readU32 (encodeHeader fs wf hf pds ++ t) 34 = pds := by
  have e : readU32 (encodeHeader fs wf hf pds ++ t) 34 =
      pds % 256 % 256 + 256 * (pds / 256 % 256 % 256) +
        65536 * (pds / 65536 % 256 % 256) +
        16777216 * (pds / 16777216 % 256 % 256) := rfl
  rw [e, u32_recompose pds h]

theorem encHdr_read38 (fs wf hf pds : Nat) (t : List Nat) :
    readI32 (encodeHeader fs wf hf pds ++ t) 38 = 2835 := by
  have e : readU32 (encodeHeader fs wf hf pds ++ t) 38 = 2835 := rfl
  unfold readI32
  rw [e]
  decide

theorem encHdr_read42 (fs wf hf pds : Nat) (t : List Nat) :
    readI32 (encodeHeader fs wf hf pds ++ t) 42 = 2835 := by
  have e : readU32 (encodeHeader fs wf hf pds ++ t) 42 = 2835 := rfl
  unfold readI32
  rw [e]
  decide

theorem encHdr_read46 (fs wf hf pds : Nat) (t : List Nat) :
    readU32 (encodeHeader fs wf hf pds ++ t) 46 = 0 := rfl

theorem encHdr_read50 (fs wf hf pds : Nat) (t : List Nat) :
    readU32 (encodeHeader fs wf hf pds ++ t) 50 = 0 := rfl

/-- Unfolding lemma for a successful encode, with the C `uint32_t`/`int64_t`
size computations spelled out. -/
theorem encode_eq_ok (w h : Int) (data : List Nat)
    (hlen : ¬ (data.length : Int) < w * h * 4 % (2 ^ 64 : Int)) :
    encode w h data = .ok
      (encodeHeader
          ((54 + ((((((w * 3 + 3).tdiv 4 * 4) % (2 ^ 32 : Int)).toNat : Int) * h %
            (2 ^ 32 : Int)).toNat)) % 2 ^ 32)
          (u32ofInt w) (u32ofInt h)
          (((((((w * 3 + 3).tdiv 4 * 4) % (2 ^ 32 : Int)).toNat : Int)) * h %
            (2 ^ 32 : Int)).toNat) ++
        encPixelArea data w.toNat h.toNat
          (((w * 3 + 3).tdiv 4 * 4 % (2 ^ 32 : Int)).toNat)) := by
  unfold encode
  rw [if_neg hlen]

/-- The encode row size equals the exact stride whenever the `int64_t`
value `width * 3 + 3` fits `uint32_t`. -/
theorem encode_rowSize_exact (w : Int) (hw : 0 ≤ w)
    (hwb : 3 * w.toNat + 3 < 2 ^ 32) :
    ((w * 3 + 3).tdiv 4 * 4 % (2 ^ 32 : Int)).toNat =
      (3 * w.toNat + 3) / 4 * 4 := by
  rcases Int.eq_ofNat_of_zero_le hw with ⟨m, rfl⟩
  have e1 : ((m : Int) * 3 + 3) = ((m * 3 + 3 : Nat) : Int) := by push_cast; ring
  have e2 : ((m * 3 + 3 : Nat) : Int).tdiv ((4 : Nat) : Int) =
      (((m * 3 + 3) / 4 : Nat) : Int) := rfl
  rw [e1, show (4 : Int) = ((4 : Nat) : Int) from rfl, e2]
  have e3 : ((((m * 3 + 3) / 4 : Nat) : Int) * ((4 : Nat) : Int)) =
      (((m * 3 + 3) / 4 * 4 : Nat) : Int) := by push_cast; ring
  rw [e3]
  rw [Int.emod_eq_of_lt (by positivity) (by exact_mod_cast (by omega : (m * 3 + 3) / 4 * 4 < 2 ^ 32))]
  rw [Int.toNat_natCast]
  omega

/-- Reading byte `54 + (q·stride + r)` of an encoded stream lands in
destination row `q` of the pixel area. -/
theorem encArea_byte (data : List Nat) (m n stride fs wf hf pds q r : Nat)
    (h3 : 3 * m ≤ stride) (hq : q < n) (hr : r < stride) :
    byteAt (encodeHeader fs wf hf pds ++ encPixelArea data m n stride)
        (54 + (q * stride + r)) =
      (encRow data m (n - 1 - q) (stride - 3 * m)).getD r 0 % 256 := by
  rw [byteAt_header_append]
  unfold byteAt
  rw [encPixelArea_getD data m n stride q r h3 hq hr]

/-! ## Claim C7: shape of the encoded stream -/

/-- C7 amended: for positive width and height whose size arithmetic fits the
C code's 32-bit fields (`3·width + 3 < 2^32` and
`54 + stride·height < 2^32`) and an RGBA buffer of at least
`width × height × 4` bytes, encode returns exactly `54 + stride × height`
bytes, with `stride = (3·width + 3)/4·4 = ceil(width·3/4)·4`, the file
header holding magic "BM", `file_size = 54 + stride × height`, reserved
fields 0 and `data_offset = 54`, the DIB header holding `header_size = 40`,
the given width, the positive height, `planes = 1`, `bpp = 24`,
`compression = 0`, `image_size = stride × height`, both resolutions 2835 and
zero palette fields, and pixel rows written bottom-up (source row `y` at
destination row `height - 1 - y`) as B,G,R bytes with source alpha
discarded and zero row-tail padding. -/
theorem encode_format (w h : Int) (data : List Nat) (stride : Nat)
    (hstride : stride = (3 * w.toNat + 3) / 4 * 4)
    (hw : 0 < w) (hh : 0 < h)
    (hlen : w * h * 4 ≤ (data.length : Int))
    (hwb : 3 * w.toNat + 3 < 2 ^ 32)
    (hfs : 54 + stride * h.toNat < 2 ^ 32) :
    ∃ out, encode w h data = .ok out ∧
      out.length = 54 + stride * h.toNat ∧
      readU16 out 0 = 0x4D42 ∧
      readU32 out 2 = 54 + stride * h.toNat ∧
      readU16 out 6 = 0 ∧ readU16 out 8 = 0 ∧
      readU32 out 10 = 54 ∧
      readU32 out 14 = 40 ∧
      readI32 out 18 = w ∧
      readI32 out 22 = h ∧
      readU16 out 26 = 1 ∧
      readU16 out 28 = 24 ∧
      readU32 out 30 = 0 ∧
      readU32 out 34 = stride * h.toNat ∧
      readI32 out 38 = 2835 ∧ readI32 out 42 = 2835 ∧
      readU32 out 46 = 0 ∧ readU32 out 50 = 0 ∧
      (∀ y x, y < h.toNat → x < w.toNat →
        byteAt out (54 + ((h.toNat - 1 - y) * stride + x * 3)) =
          byteAt data ((y * w.toNat + x) * 4 + 2) ∧
        byteAt out (54 + ((h.toNat - 1 - y) * stride + x * 3 + 1)) =
          byteAt data ((y * w.toNat + x) * 4 + 1) ∧
        byteAt out (54 + ((h.toNat - 1 - y) * stride + x * 3 + 2)) =
          byteAt data ((y * w.toNat + x) * 4)) ∧
      (∀ d p, d < h.toNat → 3 * w.toNat ≤ p → p < stride →
        byteAt out (54 + (d * stride + p)) = 0) := by
  rcases Int.eq_ofNat_of_zero_le (le_of_lt hw) with ⟨m, rfl⟩
  rcases Int.eq_ofNat_of_zero_le (le_of_lt hh) with ⟨n, rfl⟩
  simp only [Int.toNat_natCast] at hstride hwb hfs ⊢
  have hm1 : 1 ≤ m := by exact_mod_cast hw
  have hn1 : 1 ≤ n := by exact_mod_cast hh
  have hm31 : m < 2 ^ 31 := by omega
  have hstride4 : 4 ≤ stride := by omega
  have h3m : 3 * m ≤ stride := by omega
  have hstr32 : stride < 2 ^ 32 := by omega
  have hhn : 4 * n ≤ stride * n := Nat.mul_le_mul_right n hstride4
  have hsn : stride * n < 2 ^ 32 := by omega
  have hn30 : n < 2 ^ 30 := by omega
  have hprod : m * n * 4 ≤ data.length := by
    have e : ((m : Int) * n * 4) = ((m * n * 4 : Nat) : Int) := by push_cast; ring
    rw [e] at hlen
    exact_mod_cast hlen
  have hprod64 : m * n * 4 < 2 ^ 64 := by
    have : m * n ≤ 2 ^ 31 * 2 ^ 30 := Nat.mul_le_mul (by omega) (by omega)
    omega
  have hneed : ((m : Int) * n * 4) % (2 ^ 64 : Int) = ((m * n * 4 : Nat) : Int) := by
    have e : ((m : Int) * n * 4) = ((m * n * 4 : Nat) : Int) := by push_cast; ring
    rw [e]
    exact Int.emod_eq_of_lt (by positivity) (by exact_mod_cast hprod64)
  have hlen' : ¬ ((data.length : Nat) : Int) < (m : Int) * n * 4 % (2 ^ 64 : Int) := by
    rw [hneed]
    push_neg
    exact_mod_cast hprod
  have hrs3 : (((m : Int) * 3 + 3).tdiv 4 * 4 % (2 ^ 32 : Int)).toNat = stride := by
    rw [encode_rowSize_exact (m : Int) (by positivity) (by rwa [Int.toNat_natCast]),
      Int.toNat_natCast, hstride]
  have hpds : ((((((m : Int) * 3 + 3).tdiv 4 * 4) % (2 ^ 32 : Int)).toNat : Int) * n %
      (2 ^ 32 : Int)).toNat = stride * n := by
    rw [hrs3]
    have e : ((stride : Int) * n) = ((stride * n : Nat) : Int) := by push_cast; ring
    rw [e, Int.emod_eq_of_lt (by positivity) (by exact_mod_cast hsn), Int.toNat_natCast]
  have hfsv : (54 + ((((((m : Int) * 3 + 3).tdiv 4 * 4) % (2 ^ 32 : Int)).toNat : Int) * n %
      (2 ^ 32 : Int)).toNat) % 2 ^ 32 = 54 + stride * n := by
    rw [hpds]
    omega
  have henc := encode_eq_ok (m : Int) (n : Int) data hlen'
  rw [hfsv, hpds, hrs3, Int.toNat_natCast, Int.toNat_natCast] at henc
  refine ⟨_, henc, ?_, encHdr_read0 _ _ _ _ _,
    encHdr_read2 _ _ _ _ _ (by omega), encHdr_read6 _ _ _ _ _,
    encHdr_read8 _ _ _ _ _, encHdr_read10 _ _ _ _ _, encHdr_read14 _ _ _ _ _,
    ?_, ?_, encHdr_read26 _ _ _ _ _, encHdr_read28 _ _ _ _ _,
    encHdr_read30 _ _ _ _ _, encHdr_read34 _ _ _ _ _ (by omega),
    encHdr_read38 _ _ _ _ _, encHdr_read42 _ _ _ _ _, encHdr_read46 _ _ _ _ _,
    encHdr_read50 _ _ _ _ _, ?_, ?_⟩
  · rw [List.length_append, encodeHeader_length,
      encPixelArea_length data m n stride h3m]
    ring
  · unfold readI32
    rw [encHdr_read18 _ _ _ _ _ (u32ofInt_lt _)]
    exact toI32_u32ofInt _ (by omega) (by exact_mod_cast hm31)
  · unfold readI32
    rw [encHdr_read22 _ _ _ _ _ (u32ofInt_lt _)]
    exact toI32_u32ofInt _ (by omega) (by exact_mod_cast (by omega : n < 2 ^ 31))
  · intro y x hy hx
    have hq : n - 1 - y < n := by omega
    have hyy : n - 1 - (n - 1 - y) = y := by omega
    refine ⟨?_, ?_, ?_⟩
    · have e := encRow_getD_pixel data m y (stride - 3 * m) x 0 hx (by omega)
      simp only [Nat.add_zero, Nat.sub_zero] at e
      rw [encArea_byte data m n stride _ _ _ _ (n - 1 - y) (x * 3) h3m hq (by omega),
        hyy, e, byteAt_mod]
    · have e := encRow_getD_pixel data m y (stride - 3 * m) x 1 hx (by omega)
      rw [Nat.add_assoc ((n - 1 - y) * stride) (x * 3) 1,
        encArea_byte data m n stride _ _ _ _ (n - 1 - y) (x * 3 + 1) h3m hq (by omega),
        hyy, e, byteAt_mod]
    · have e := encRow_getD_pixel data m y (stride - 3 * m) x 2 hx (by omega)
      simp only [Nat.sub_self, Nat.add_zero] at e
      rw [Nat.add_assoc ((n - 1 - y) * stride) (x * 3) 2,
        encArea_byte data m n stride _ _ _ _ (n - 1 - y) (x * 3 + 2) h3m hq (by omega),
        hyy, e, byteAt_mod]
  · intro d p hd hp hps
    rw [encArea_byte data m n stride _ _ _ _ d p h3m hd hps,
      encRow_getD_pad data m _ _ p (by omega)]

theorem blocks_one (f : Nat → List Nat) : blocks f 1 = f 0 := by
  show blocks f 0 ++ f 0 = f 0
  rw [show blocks f 0 = [] from rfl, List.nil_append]

/-- Counterexample to C7 as stated: at width 1431655765 (where
`width·3 + 3 = 2^32 + 2`), the C `uint32_t` row size wraps to 0, so the
encoded stream has `54 + 4294967295` bytes instead of the
`54 + ceil(width·3/4)·4·height = 54 + 4294967296` bytes the claim requires
(and its file-size field holds 54, not the claimed value). -/
theorem c7_counterexample :
    (encode 1431655765 1 (List.replicate 5726623060 0)).map List.length =
      .ok 4294967349 ∧
      54 + (1431655765 * 3 + 3) / 4 * 4 * 1 = 4294967350 := by
  constructor
  · have hlen' : ¬ (((List.replicate 5726623060 (0 : Nat)).length : Nat) : Int) <
        (1431655765 : Int) * 1 * 4 % (2 ^ 64 : Int) := by
      rw [List.length_replicate]
      decide
    rw [encode_eq_ok 1431655765 1 _ hlen']
    have hrs : (((1431655765 : Int) * 3 + 3).tdiv 4 * 4 % (2 ^ 32 : Int)).toNat = 0 := by
      decide
    rw [hrs]
    have harea : (encPixelArea (List.replicate 5726623060 (0 : Nat))
        (1431655765 : Int).toNat (1 : Int).toNat 0).length = 4294967295 := by
      rw [show (1431655765 : Int).toNat = 1431655765 from rfl,
        show (1 : Int).toNat = 1 from rfl]
      unfold encPixelArea
      rw [blocks_one]
      unfold encRow
      rw [List.length_append, List.length_replicate,
        blocks_length _ 3 (fun _ => encPixel_length _ _) 1431655765]
    show Except.ok _ = Except.ok _
    rw [Except.ok.injEq, List.length_append, encodeHeader_length, harea]
  · decide

/-- Witness for the amended C7 at the stride examples named by the spec:
width 1 gives stride 4 (58-byte output), width 4 gives stride 12 (66-byte
output). -/
theorem encode_format_witness :
    (∃ out, encode 1 1 [255, 0, 0, 255] = .ok out ∧ out.length = 54 + 4 * 1) ∧
    (∃ out, encode 4 1 (List.replicate 16 0) = .ok out ∧
      out.length = 54 + 12 * 1) := by
  constructor
  · obtain ⟨out, h1, h2, -⟩ := encode_format 1 1 [255, 0, 0, 255] 4 (by decide)
      (by decide) (by decide) (by decide) (by decide) (by decide)
    exact ⟨out, h1, h2⟩
  · obtain ⟨out, h1, h2, -⟩ := encode_format 4 1 (List.replicate 16 0) 12 (by decide)
      (by decide) (by decide) (by simp) (by decide) (by decide)
    exact ⟨out, h1, h2⟩

/-! ## Claim C8: the encode buffer check -/

/-- Counterexample to C8 as stated: with width `2^62` and height 1 the
exact product `width × height × 4 = 2^64` exceeds the empty buffer's
length, yet encode does not fail with BufferTooSmall, because the C
comparison uses `(size_t)(width * height * 4)`, which wraps to 0. -/
theorem c8_counterexample :
    ((([] : List Nat).length : Int) < 4611686018427387904 * 1 * 4) ∧
      encode 4611686018427387904 1 [] ≠ .error .bufferTooSmall := by
  refine ⟨by decide, ?_⟩
  unfold encode
  rw [if_neg (by decide)]
  simp

/-- C8 amended: encode fails with BufferTooSmall exactly when the RGBA
buffer length is less than `(width × height × 4) mod 2^64` (the value the C
`size_t` cast produces, equal to `width × height × 4` whenever that product
fits 64 bits); on failure no output bytes are produced and BufferTooSmall is
the only encode error, and otherwise encode returns an output. -/
theorem encode_buffer_check (w h : Int) (data : List Nat) :
    ((data.length : Int) < w * h * 4 % (2 ^ 64 : Int) →
      encode w h data = .error .bufferTooSmall) ∧
    (¬ (data.length : Int) < w * h * 4 % (2 ^ 64 : Int) →
      ∃ out, encode w h data = .ok out) ∧
    (∀ e, encode w h data = .error e → e = .bufferTooSmall) := by
  refine ⟨fun hl => ?_, fun hl => ?_, fun e _ => by cases e; rfl⟩
  · unfold encode
    rw [if_pos hl]
  · exact ⟨_, encode_eq_ok w h data hl⟩

/-- Witness for the amended C8: a 1x1 image with an empty buffer fails with
BufferTooSmall, and with a 4-byte buffer encode succeeds. -/
theorem encode_buffer_check_witness :
    encode 1 1 [] = .error .bufferTooSmall ∧
      ∃ out, encode 1 1 [9, 9, 9, 9] = .ok out :=
  ⟨(encode_buffer_check 1 1 []).1 (by decide),
   (encode_buffer_check 1 1 [9, 9, 9, 9]).2.1 (by decide)⟩

/-! ## Round-trip machinery (claim C1) -/

theorem list_ext_getD (l1 l2 : List Nat) (hlen : l1.length = l2.length)
    (h : ∀ i, i < l1.length → l1.getD i 0 = l2.getD i 0) : l1 = l2 := by
  apply List.ext_getElem hlen
  intro i h1 h2
  have := h i h1
  rwa [List.getD_eq_getElem _ _ h1, List.getD_eq_getElem _ _ h2] at this

theorem setAlpha_length (l : List Nat) : (setAlpha l).length = l.length := by
  simp [setAlpha]

theorem setAlpha_getD (l : List Nat) (i : Nat) (hi : i < l.length) :
    (setAlpha l).getD i 0 = if i % 4 = 3 then 255 else l.getD i 0 := by
  unfold setAlpha
  rw [List.getD_eq_getElem _ _ (by simpa using hi), List.getElem_map,
    List.getElem_range]

theorem setAlpha_eq_self (l : List Nat)
    (h255 : ∀ j, j < l.length → j % 4 = 3 → l.getD j 0 = 255) :
    setAlpha l = l := by
  refine (list_ext_getD (setAlpha l) l (setAlpha_length l) fun i hi => ?_)
  rw [setAlpha_length] at hi
  rw [setAlpha_getD l i hi]
  split
  · exact (h255 i hi (by assumption)).symm
  · rfl

/-- Every index below `n * (m * 4)` decomposes into pixel coordinates. -/
theorem index_decompose (m n i : Nat) (hm : 0 < m) (hi : i < n * (m * 4)) :
    ∃ y x c, y < n ∧ x < m ∧ c < 4 ∧ i = (y * m + x) * 4 + c := by
  have hm4 : 0 < m * 4 := by omega
  have h1 := Nat.div_add_mod i (m * 4)
  have h2 : i % (m * 4) < m * 4 := Nat.mod_lt _ hm4
  have h3 := Nat.div_add_mod (i % (m * 4)) 4
  have h4 : i % (m * 4) % 4 < 4 := Nat.mod_lt _ (by omega)
  have hx : i % (m * 4) / 4 < m := by
    by_contra hx'
    push_neg at hx'
    omega
  have hy : i / (m * 4) < n := by
    by_contra hy'
    push_neg at hy'
    have hmul : n * (m * 4) ≤ i / (m * 4) * (m * 4) := Nat.mul_le_mul_right _ hy'
    have hcomm : m * 4 * (i / (m * 4)) = i / (m * 4) * (m * 4) := Nat.mul_comm _ _
    omega
  refine ⟨i / (m * 4), i % (m * 4) / 4, i % (m * 4) % 4, hy, hx, h4, ?_⟩
  have he : (i / (m * 4) * m + i % (m * 4) / 4) * 4 =
      i / (m * 4) * (m * 4) + 4 * (i % (m * 4) / 4) := by ring
  have hcomm : m * 4 * (i / (m * 4)) = i / (m * 4) * (m * 4) := Nat.mul_comm _ _
  omega

/-- The alpha bytes of a 24-bit decode are all 255. -/
theorem decodePixels24_alpha (bmp : List Nat) (off rs bpx : Nat)
    (td : Bool) (m n : Nat) :
    ∀ j, j < (decodePixels bmp off rs bpx 24 td m n).length → j % 4 = 3 →
      (decodePixels bmp off rs bpx 24 td m n).getD j 0 = 255 := by
  intro j hj hj4
  rw [decodePixels_length] at hj
  rcases Nat.eq_zero_or_pos m with hm | hm
  · subst hm
    omega
  obtain ⟨y, x, c, hy, hx, hc, rfl⟩ := index_decompose m n j hm hj
  have hcm : ((y * m + x) * 4 + c) % 4 = c := by
    rw [Nat.mul_comm (y * m + x) 4, Nat.mul_add_mod]
    exact Nat.mod_eq_of_lt hc
  have hc3 : c = 3 := by omega
  subst hc3
  rw [decodePixels_getD bmp off rs bpx 24 td m n y x 3 hy hx (by omega)]
  unfold decodePixel
  norm_num

/-- Decoding the pixel area of an encoded stream recovers the RGBA buffer
with alpha forced to 255: the core of the round trip. -/
theorem roundtrip_data (D : List Nat) (m n S fs wf hf pds : Nat)
    (hm : 1 ≤ m) (hS3 : 3 * m ≤ S)
    (hDlt : ∀ j, D.getD j 0 < 256)
    (hDlen : D.length = n * (m * 4)) :
    decodePixels (encodeHeader fs wf hf pds ++ encPixelArea D m n S) 54 S 3 24
        false m n = setAlpha D := by
  set out := encodeHeader fs wf hf pds ++ encPixelArea D m n S with hout
  refine list_ext_getD _ _ ?_ ?_
  · rw [decodePixels_length, setAlpha_length, hDlen]
  · intro i hi
    rw [decodePixels_length] at hi
    obtain ⟨y, x, c, hy, hx, hc, rfl⟩ := index_decompose m n i hm hi
    have hcm : ((y * m + x) * 4 + c) % 4 = c := by
      rw [Nat.mul_comm (y * m + x) 4, Nat.mul_add_mod]
      exact Nat.mod_eq_of_lt hc
    have hq : n - 1 - y < n := by omega
    have hyy : n - 1 - (n - 1 - y) = y := by omega
    have hbyteD : ∀ j : Nat, byteAt D j = D.getD j 0 :=
      fun j => Nat.mod_eq_of_lt (hDlt j)
    rw [setAlpha_getD D _ (by omega), hcm,
      decodePixels_getD out 54 S 3 24 false m n y x c hy hx hc]
    simp only [Bool.false_eq_true, if_false]
    have hbase : 54 + (n - 1 - y) * S + x * 3 = 54 + ((n - 1 - y) * S + x * 3) := by
      omega
    rcases c with _ | _ | _ | _ | c
    · show byteAt out (54 + (n - 1 - y) * S + x * 3 + 2) = D.getD ((y * m + x) * 4 + 0) 0
      have e := encRow_getD_pixel D m y (S - 3 * m) x 2 hx (by omega)
      simp only [Nat.sub_self, Nat.add_zero] at e
      rw [show 54 + (n - 1 - y) * S + x * 3 + 2 = 54 + ((n - 1 - y) * S + (x * 3 + 2))
          by omega,
        hout, encArea_byte D m n S fs wf hf pds (n - 1 - y) (x * 3 + 2) hS3 hq (by omega),
        hyy, e, hbyteD]
      exact Nat.mod_eq_of_lt (hDlt _)
    · show byteAt out (54 + (n - 1 - y) * S + x * 3 + 1) = D.getD ((y * m + x) * 4 + 1) 0
      have e := encRow_getD_pixel D m y (S - 3 * m) x 1 hx (by omega)
      rw [show 54 + (n - 1 - y) * S + x * 3 + 1 = 54 + ((n - 1 - y) * S + (x * 3 + 1))
          by omega,
        hout, encArea_byte D m n S fs wf hf pds (n - 1 - y) (x * 3 + 1) hS3 hq (by omega),
        hyy, e, hbyteD]
      exact Nat.mod_eq_of_lt (hDlt _)
    · show byteAt out (54 + (n - 1 - y) * S + x * 3) = D.getD ((y * m + x) * 4 + 2) 0
      have e := encRow_getD_pixel D m y (S - 3 * m) x 0 hx (by omega)
      simp only [Nat.add_zero, Nat.sub_zero] at e
      rw [show 54 + (n - 1 - y) * S + x * 3 = 54 + ((n - 1 - y) * S + x * 3) by omega,
        hout, encArea_byte D m n S fs wf hf pds (n - 1 - y) (x * 3) hS3 hq (by omega),
        hyy, e, hbyteD]
      exact Nat.mod_eq_of_lt (hDlt _)
    · rfl
    · omega

/-- The decode row size at 3 bytes per pixel is exact for widths whose
byte count fits `uint32_t`. -/
theorem rowSize_exact (m : Nat) (hm32 : 3 * m + 3 < 2 ^ 32) :
    rowSize (m : Int) 3 = (3 * m + 3) / 4 * 4 := by
  unfold rowSize
  rw [u32ofInt_of_nonneg _ (by positivity)
      (by exact_mod_cast (by omega : m < 2 ^ 32)),
    Int.toNat_natCast,
    Nat.mod_eq_of_lt (by omega : m * 3 < 2 ^ 32),
    Nat.mod_eq_of_lt (by omega : m * 3 + 3 < 2 ^ 32),
    show m * 3 + 3 = 3 * m + 3 by ring]

/-! ## Claim C1: the decode/encode round trip -/

/-- C1: for every BMP on which decode succeeds, encoding the result and
decoding again yields the same width, the same height, and the same RGBA
bytes up to the alpha loss of the 24-bit re-encoding: every alpha byte of
the final buffer is 255 (`setAlpha`), and for a 24-bit source — whose
decoded alpha is already 255 everywhere — the buffer is byte-identical. -/
theorem decode_encode_roundtrip (bmp : List Nat) (img : Image)
    (h : decode bmp = .ok img) :
    ∃ out, encode img.width img.height img.data = .ok out ∧
      decode out = .ok ⟨img.width, img.height, setAlpha img.data⟩ ∧
      (readU16 bmp 28 = 24 → setAlpha img.data = img.data) := by
  obtain ⟨hc, h6, h7, himg⟩ := decode_ok_inv bmp img h
  subst himg
  dsimp only
  set W := readI32 bmp 18 with hWdef
  set A := absInt (readI32 bmp 22) with hAdef
  set D := decodePixels bmp (readU32 bmp 10) (rowSize W (readU16 bmp 28 / 8))
    (readU16 bmp 28 / 8) (readU16 bmp 28) (decide (readI32 bmp 22 < 0))
    W.toNat A.toNat with hDdef
  have hWr := readI32_range bmp 18
  have hAr : 0 ≤ A ∧ A ≤ 2 ^ 31 := by
    have := readI32_range bmp 22
    rw [hAdef]
    unfold absInt
    split <;> omega
  have hDlen : D.length = A.toNat * (W.toNat * 4) := by
    rw [hDdef]
    exact decodePixels_length _ _ _ _ _ _ _ _
  have hDlt : ∀ j, D.getD j 0 < 256 := by
    intro j
    rw [hDdef]
    exact decodePixels_getD_lt _ _ _ _ _ _ _ _ j
  have halpha : readU16 bmp 28 = 24 → setAlpha D = D := by
    intro h24
    have hD24 : D = decodePixels bmp (readU32 bmp 10)
        (rowSize W (readU16 bmp 28 / 8)) (readU16 bmp 28 / 8) 24
        (decide (readI32 bmp 22 < 0)) W.toNat A.toNat := by
      rw [hDdef, h24]
    rw [hD24]
    exact setAlpha_eq_self _ (decodePixels24_alpha bmp _ _ _ _ _ _)
  by_cases hdeg : W.toNat * A.toNat = 0
  · -- degenerate image: no pixels at all
    have hD0 : D = [] := by
      apply List.eq_nil_of_length_eq_zero
      have e : A.toNat * (W.toNat * 4) = W.toNat * A.toNat * 4 := by ring
      omega
    have hWor : A = 0 ∨ (W = 0 ∧ 1 ≤ A) := by
      by_cases hA0 : A = 0
      · exact Or.inl hA0
      · right
        have hA1 : 1 ≤ A := by omega
        refine ⟨?_, hA1⟩
        have hWt : W.toNat = 0 := by
          rcases Nat.mul_eq_zero.mp hdeg with h' | h'
          · exact h'
          · omega
        have hWle : W ≤ 0 := by omega
        nlinarith [h7.1]
    have hWA0 : W * A * 4 = 0 := by
      rcases hWor with hA0 | ⟨hW0, _⟩
      · rw [hA0]
        ring
      · rw [hW0]
        ring
    have hlen' : ¬ (D.length : Int) < W * A * 4 % (2 ^ 64 : Int) := by
      rw [hWA0]
      simp
    have hrs0 : (((0 : Int) * 3 + 3).tdiv 4 * 4 % (2 ^ 32 : Int)).toNat = 0 := by decide
    have hpds : (((((W * 3 + 3).tdiv 4 * 4) % (2 ^ 32 : Int)).toNat : Int) * A %
        (2 ^ 32 : Int)).toNat = 0 := by
      rcases hWor with hA0 | ⟨hW0, _⟩
      · rw [hA0, mul_zero]
        rfl
      · rw [hW0, hrs0]
        simp
    have harea : encPixelArea D W.toNat A.toNat
        (((W * 3 + 3).tdiv 4 * 4 % (2 ^ 32 : Int)).toNat) = [] := by
      rcases hWor with hA0 | ⟨hW0, _⟩
      · rw [hA0]
        rfl
      · apply List.eq_nil_of_length_eq_zero
        rw [hW0, hrs0,
          encPixelArea_length D ((0 : Int)).toNat ((A : Int)).toNat 0 (by omega)]
        ring
    have henc := encode_eq_ok W A D hlen'
    rw [hpds, harea] at henc
    rw [show ((54 + 0) % 2 ^ 32 : Nat) = 54 by norm_num] at henc
    refine ⟨_, henc, ?_, halpha⟩
    have e18 : readI32 (encodeHeader 54 (u32ofInt W) (u32ofInt A) 0 ++ []) 18 = W := by
      unfold readI32
      rw [encHdr_read18 _ _ _ _ _ (u32ofInt_lt _)]
      exact toI32_u32ofInt _ hWr.1 hWr.2
    have e22abs : absInt (readI32 (encodeHeader 54 (u32ofInt W) (u32ofInt A) 0 ++ []) 22) =
        A := by
      unfold readI32
      rw [encHdr_read22 _ _ _ _ _ (u32ofInt_lt _)]
      exact absInt_toI32_u32ofInt _ hAr.1 hAr.2
    have e28 : readU16 (encodeHeader 54 (u32ofInt W) (u32ofInt A) 0 ++ []) 28 = 24 :=
      encHdr_read28 _ _ _ _ _
    have e10 : readU32 (encodeHeader 54 (u32ofInt W) (u32ofInt A) 0 ++ []) 10 = 54 :=
      encHdr_read10 _ _ _ _ _
    have hlenout : (encodeHeader 54 (u32ofInt W) (u32ofInt A) 0 ++ []).length = 54 := by
      rw [List.length_append, encodeHeader_length]
      rfl
    have hcheck : headerChecks (encodeHeader 54 (u32ofInt W) (u32ofInt A) 0 ++ []) :=
      ⟨by omega, encHdr_read0 _ _ _ _ _, encHdr_read14 _ _ _ _ _,
        encHdr_read30 _ _ _ _ _, Or.inl e28⟩
    have hprod0 : rowSize W 3 * u32ofInt A = 0 := by
      rcases hWor with hA0 | ⟨hW0, _⟩
      · rw [hA0]
        rfl
      · rw [hW0, show rowSize 0 3 = 0 by decide]
        ring
    have hext : ¬ (encodeHeader 54 (u32ofInt W) (u32ofInt A) 0 ++ []).length <
        wrappedExtent (encodeHeader 54 (u32ofInt W) (u32ofInt A) 0 ++ []) := by
      unfold wrappedExtent
      rw [e10, e18, e22abs, e28, show (24 : Nat) / 8 = 3 by norm_num, hprod0,
        hlenout]
      norm_num
    have halloc' : 0 ≤ readI32 (encodeHeader 54 (u32ofInt W) (u32ofInt A) 0 ++ []) 18 *
          absInt (readI32 (encodeHeader 54 (u32ofInt W) (u32ofInt A) 0 ++ []) 22) * 4 ∧
        readI32 (encodeHeader 54 (u32ofInt W) (u32ofInt A) 0 ++ []) 18 *
          absInt (readI32 (encodeHeader 54 (u32ofInt W) (u32ofInt A) 0 ++ []) 22) * 4 <
          2 ^ 31 := by
      rw [e18, e22abs]
      exact h7
    rw [decode_eq_ok _ hcheck hext halloc']
    simp only [Except.ok.injEq, Image.mk.injEq]
    refine ⟨e18, e22abs, ?_⟩
    have hdata0 : (decodePixels (encodeHeader 54 (u32ofInt W) (u32ofInt A) 0 ++ [])
        (readU32 (encodeHeader 54 (u32ofInt W) (u32ofInt A) 0 ++ []) 10)
        (rowSize (readI32 (encodeHeader 54 (u32ofInt W) (u32ofInt A) 0 ++ []) 18)
          (readU16 (encodeHeader 54 (u32ofInt W) (u32ofInt A) 0 ++ []) 28 / 8))
        (readU16 (encodeHeader 54 (u32ofInt W) (u32ofInt A) 0 ++ []) 28 / 8)
        (readU16 (encodeHeader 54 (u32ofInt W) (u32ofInt A) 0 ++ []) 28)
        (decide (readI32 (encodeHeader 54 (u32ofInt W) (u32ofInt A) 0 ++ []) 22 < 0))
        (readI32 (encodeHeader 54 (u32ofInt W) (u32ofInt A) 0 ++ []) 18).toNat
        (absInt (readI32 (encodeHeader 54 (u32ofInt W) (u32ofInt A) 0 ++ []) 22)).toNat) =
        [] := by
      apply List.eq_nil_of_length_eq_zero
      rw [decodePixels_length, e18, e22abs]
      have e : A.toNat * (W.toNat * 4) = W.toNat * A.toNat * 4 := by ring
      omega
    rw [hdata0, hD0]
    rfl
  · -- image with at least one pixel
    obtain ⟨hm0, hn0⟩ := Nat.mul_ne_zero_iff.mp hdeg
    set m := W.toNat with hmdef
    set n := A.toNat with hndef
    have hm1 : 1 ≤ m := by omega
    have hn1 : 1 ≤ n := by omega
    have hWm : (m : Int) = W := Int.toNat_of_nonneg (by omega)
    have hAn : (n : Int) = A := Int.toNat_of_nonneg (by omega)
    have hcast : ((m * n * 4 : Nat) : Int) = W * A * 4 := by
      push_cast
      rw [hWm, hAn]
    have hmn4 : m * n * 4 < 2 ^ 31 := by
      have := h7.2
      rw [← hcast] at this
      exact_mod_cast this
    have hmle : m ≤ m * n := Nat.le_mul_of_pos_right m (by omega)
    have hnle : n ≤ m * n := Nat.le_mul_of_pos_left n (by omega)
    have hm29 : m < 2 ^ 29 := by omega
    have hn29 : n < 2 ^ 29 := by omega
    set S := (3 * m + 3) / 4 * 4 with hSdef
    have hS3 : 3 * m ≤ S ∧ S ≤ 3 * m + 3 := by omega
    have hSn' : S * n ≤ 3 * (m * n) + 3 * n := by
      have h1 : S * n ≤ (3 * m + 3) * n := Nat.mul_le_mul_right n (by omega)
      have h2 : (3 * m + 3) * n = 3 * (m * n) + 3 * n := by ring
      omega
    have hSn : S * n < 2 ^ 32 := by omega
    have hfs32 : 54 + S * n < 2 ^ 32 := by omega
    have hneed : W * A * 4 % (2 ^ 64 : Int) = ((m * n * 4 : Nat) : Int) := by
      rw [← hcast]
      exact Int.emod_eq_of_lt (by positivity)
        (by exact_mod_cast (by omega : m * n * 4 < 2 ^ 64))
    have hlen' : ¬ (D.length : Int) < W * A * 4 % (2 ^ 64 : Int) := by
      have hrw : n * (m * 4) = m * n * 4 := by ring
      rw [hneed, hDlen, hrw]
      push_neg
      exact le_refl _
    have henc := encode_eq_ok W A D hlen'
    have hrs3 : (((W * 3 + 3).tdiv 4 * 4) % (2 ^ 32 : Int)).toNat = S := by
      rw [← hWm, encode_rowSize_exact (m : Int) (by positivity)
        (by rw [Int.toNat_natCast]; omega), Int.toNat_natCast]
    rw [hrs3] at henc
    have hpds : (((S : Nat) : Int) * A % (2 ^ 32 : Int)).toNat = S * n := by
      rw [← hAn, show ((S : Nat) : Int) * (n : Int) = ((S * n : Nat) : Int) by push_cast; ring,
        Int.emod_eq_of_lt (by positivity) (by exact_mod_cast hSn), Int.toNat_natCast]
    rw [hpds, Nat.mod_eq_of_lt hfs32] at henc
    refine ⟨_, henc, ?_, halpha⟩
    have e18 : readI32 (encodeHeader (54 + S * n) (u32ofInt W) (u32ofInt A) (S * n) ++
        encPixelArea D m n S) 18 = W := by
      unfold readI32
      rw [encHdr_read18 _ _ _ _ _ (u32ofInt_lt _)]
      exact toI32_u32ofInt _ hWr.1 hWr.2
    have e22 : readI32 (encodeHeader (54 + S * n) (u32ofInt W) (u32ofInt A) (S * n) ++
        encPixelArea D m n S) 22 = A := by
      unfold readI32
      rw [encHdr_read22 _ _ _ _ _ (u32ofInt_lt _)]
      exact toI32_u32ofInt _ (by omega) (by omega)
    have e22abs : absInt (readI32 (encodeHeader (54 + S * n) (u32ofInt W) (u32ofInt A)
        (S * n) ++ encPixelArea D m n S) 22) = A := by
      rw [e22]
      unfold absInt
      rw [if_neg (not_lt.mpr hAr.1)]
    have e28 : readU16 (encodeHeader (54 + S * n) (u32ofInt W) (u32ofInt A) (S * n) ++
        encPixelArea D m n S) 28 = 24 := encHdr_read28 _ _ _ _ _
    have e10 : readU32 (encodeHeader (54 + S * n) (u32ofInt W) (u32ofInt A) (S * n) ++
        encPixelArea D m n S) 10 = 54 := encHdr_read10 _ _ _ _ _
    have harea_len : (encPixelArea D m n S).length = n * S :=
      encPixelArea_length D m n S (by omega)
    have hlenout : (encodeHeader (54 + S * n) (u32ofInt W) (u32ofInt A) (S * n) ++
        encPixelArea D m n S).length = 54 + n * S := by
      rw [List.length_append, encodeHeader_length, harea_len]
    have hcheck : headerChecks (encodeHeader (54 + S * n) (u32ofInt W) (u32ofInt A)
        (S * n) ++ encPixelArea D m n S) :=
      ⟨by omega, encHdr_read0 _ _ _ _ _, encHdr_read14 _ _ _ _ _,
        encHdr_read30 _ _ _ _ _, Or.inl e28⟩
    have hrsW : rowSize W 3 = S := by
      rw [← hWm, rowSize_exact m (by omega)]
    have hu32A : u32ofInt A = n := by
      rw [← hAn, u32ofInt_of_nonneg _ (by positivity)
        (by exact_mod_cast (by omega : n < 2 ^ 32)), Int.toNat_natCast]
    have hext : ¬ (encodeHeader (54 + S * n) (u32ofInt W) (u32ofInt A) (S * n) ++
        encPixelArea D m n S).length <
        wrappedExtent (encodeHeader (54 + S * n) (u32ofInt W) (u32ofInt A) (S * n) ++
          encPixelArea D m n S) := by
      unfold wrappedExtent
      rw [hlenout, e10, e18, e22abs, e28, show (24 : Nat) / 8 = 3 by norm_num, hrsW,
        hu32A, Nat.mod_eq_of_lt hSn, Nat.mod_eq_of_lt hfs32]
      have : n * S = S * n := Nat.mul_comm n S
      omega
    have halloc' : 0 ≤ readI32 (encodeHeader (54 + S * n) (u32ofInt W) (u32ofInt A)
          (S * n) ++ encPixelArea D m n S) 18 *
          absInt (readI32 (encodeHeader (54 + S * n) (u32ofInt W) (u32ofInt A) (S * n) ++
            encPixelArea D m n S) 22) * 4 ∧
        readI32 (encodeHeader (54 + S * n) (u32ofInt W) (u32ofInt A) (S * n) ++
          encPixelArea D m n S) 18 *
          absInt (readI32 (encodeHeader (54 + S * n) (u32ofInt W) (u32ofInt A) (S * n) ++
            encPixelArea D m n S) 22) * 4 < 2 ^ 31 := by
      rw [e18, e22abs]
      exact h7
    rw [decode_eq_ok _ hcheck hext halloc']
    simp only [Except.ok.injEq, Image.mk.injEq]
    refine ⟨e18, e22abs, ?_⟩
    have htd : decide (A < 0) = false := decide_eq_false (not_lt.mpr hAr.1)
    rw [e10, e22abs, e18, e22, e28, show (24 : Nat) / 8 = 3 by norm_num, hrsW, htd]
    exact roundtrip_data D m n S (54 + S * n) (u32ofInt W) (u32ofInt A) (S * n)
      hm1 (by omega) hDlt hDlen

/-- Witness for C1 at the repository's own 1x1 24-bit test vector: the
decoded red pixel re-encodes and re-decodes to itself. -/
theorem decode_encode_roundtrip_witness :
    ∃ out, encode (Image.mk 1 1 [255, 0, 0, 255]).width
        (Image.mk 1 1 [255, 0, 0, 255]).height
        (Image.mk 1 1 [255, 0, 0, 255]).data = .ok out ∧
      decode out = .ok ⟨(Image.mk 1 1 [255, 0, 0, 255]).width,
        (Image.mk 1 1 [255, 0, 0, 255]).height,
        setAlpha (Image.mk 1 1 [255, 0, 0, 255]).data⟩ ∧
      (readU16 bmp24x1 28 = 24 →
        setAlpha (Image.mk 1 1 [255, 0, 0, 255]).data =
          (Image.mk 1 1 [255, 0, 0, 255]).data) :=
  decode_encode_roundtrip bmp24x1 ⟨1, 1, [255, 0, 0, 255]⟩ (by decide)

end BareBmp
